import Mathlib

/-!
Verification of the two-column layout classifier in `src/visualizer-test.py`.

The classifier is a pure function over bounding-box geometry.  Coordinates are
integers in the source and all arithmetic performed on them (halving for
centers, ratio comparisons against 0.7 / 0.25 / 0.75 / 0.3 / 0.4) is exact in
the rationals, so the embedding uses `ℚ` throughout.

Python's `sorted` with a key is a stable sort; any stable sort with respect to
the same total preorder produces the identical output list, so the embedding
uses `List.insertionSort` (stable) for both the center sort and the sort
inside the median.
-/

namespace Visualizer

/-- A bounding box `[x_start, y_start, x_end, y_end]` in page pixel
coordinates, as unpacked on lines 37-38 and 75 of `visualizer-test.py`. -/
structure BBox where
  x_start : ℚ
  y_start : ℚ
  x_end : ℚ
  y_end : ℚ
deriving DecidableEq

/-- A layout dictionary as consumed by `detect_two_columns` (lines 69-70).
`none` for `bbox_layout` models a `layout.get('bbox_layout')` that is absent
or falsy (e.g. an empty list); likewise for `bbox_text`.  The `label` and
`text` entries exist in the data but are never read by the classifier. -/
structure Layout where
  bbox_layout : Option BBox
  bbox_text : Option (List BBox)
  label : Option String
  text : Option (List String)
deriving DecidableEq

/-- `center_x` of a box, line 96: `(bbox[0] + bbox[2]) / 2`. -/
def center_x (b : BBox) : ℚ := (b.x_start + b.x_end) / 2

/-- `_is_likely_spanning_box` (lines 33-54).  Note that when
`layout_width == 0` the Python returns `False` immediately (line 43-44), so
neither the ratio rule nor the absolute-width rule is evaluated. -/
def is_likely_spanning_box (text_bbox layout_bbox : BBox) : Bool :=
  if layout_bbox.x_end - layout_bbox.x_start = 0 then false
  else if (text_bbox.x_end - text_bbox.x_start) /
      (layout_bbox.x_end - layout_bbox.x_start) > 7/10 then true
  else if text_bbox.x_end - text_bbox.x_start > 700 then true
  else false

/-- The spanning-box filter loop, lines 83-86. -/
def non_spanning_boxes (layout_bbox : BBox) (text_bboxes : List BBox) : List BBox :=
  text_bboxes.filter (fun b => !is_likely_spanning_box b layout_bbox)

/-- The sort key relation used on line 100 (`key=lambda b: b['cx']`). -/
def cxLE (a b : BBox) : Prop := center_x a ≤ center_x b

instance : DecidableRel cxLE :=
  fun a b => inferInstanceAs (Decidable (center_x a ≤ center_x b))

instance : IsTotal BBox cxLE := ⟨fun a b => le_total (center_x a) (center_x b)⟩

instance : IsTrans BBox cxLE := ⟨fun _ _ _ h h' => le_trans h h'⟩

/-- Line 100: `sorted(centered_boxes, key=lambda b: b['cx'])`.  Python's sort
is stable; `insertionSort` is the stable sort available here. -/
def sorted_boxes_by_cx (bs : List BBox) : List BBox :=
  List.insertionSort cxLE bs

/-- One entry of the `potential_gutters` list built on lines 117-121. -/
structure Gutter where
  gutter_x_candidate : ℚ
  gap_width_centers : ℚ
  split_index : ℕ
deriving DecidableEq

/-- The body of the candidate loop (lines 109-121) for split index `i` and
the adjacent sorted centers `cxl = sorted_boxes_by_cx[i]['cx']`,
`cxr = sorted_boxes_by_cx[i+1]['cx']`.
`GUTTER_SEARCH_RANGE_LAYOUT_RATIO = (0.25, 0.75)` (line 20). -/
def gutter_candidate (layout_bbox : BBox) (i : ℕ) (cxl cxr : ℚ) : Option Gutter :=
  if layout_bbox.x_start + (layout_bbox.x_end - layout_bbox.x_start) * (1/4)
        ≤ (cxl + cxr) / 2 ∧
      (cxl + cxr) / 2
        ≤ layout_bbox.x_start + (layout_bbox.x_end - layout_bbox.x_start) * (3/4) ∧
      0 < cxr - cxl
  then some ⟨(cxl + cxr) / 2, cxr - cxl, i⟩
  else none

/-- The candidate-gutter loop `for i in range(len(sorted_boxes_by_cx) - 1)`
(lines 102-121), walking the adjacent pairs of the sorted list while `i`
tracks the current split index.  The loop body reads only the `'cx'` field of
the sorted boxes, so the embedding takes the list of sorted centers. -/
def potential_gutters_from (layout_bbox : BBox) : ℕ → List ℚ → List Gutter
  | i, cxl :: cxr :: rest =>
    (gutter_candidate layout_bbox i cxl cxr).toList
      ++ potential_gutters_from layout_bbox (i + 1) (cxr :: rest)
  | _, _ => []

/-- The full `potential_gutters` list of lines 102-121. -/
def potential_gutters (layout_bbox : BBox) (centers : List ℚ) : List Gutter :=
  potential_gutters_from layout_bbox 0 centers

/-- CPython `max(iterable, key=...)` (line 128): left-to-right scan keeping
the current best, replacing it only when a strictly larger key appears, so the
first maximal element wins. -/
def pyMaxGutter : Gutter → List Gutter → Gutter
  | best, [] => best
  | best, g :: t =>
    pyMaxGutter (if best.gap_width_centers < g.gap_width_centers then g else best) t

/-- CPython `min(iterable)` over a nonempty iterable (lines 154, 159); the
`[]` case is junk, the call sites are guarded by nonemptiness (line 152). -/
def pyMinQ : List ℚ → ℚ
  | [] => 0
  | a :: t => t.foldl min a

/-- CPython `max(iterable)` over a nonempty iterable (lines 155, 160). -/
def pyMaxQ : List ℚ → ℚ
  | [] => 0
  | a :: t => t.foldl max a

/-- `np.median` on a list of rationals: sort, take the middle element for odd
length, the mean of the two middle elements for even length.  The `[]` case
is junk (numpy yields NaN there); both call sites are guarded by the
two-boxes-per-column check on lines 138-140. -/
def np_median (xs : List ℚ) : ℚ :=
  let s := List.insertionSort (· ≤ ·) xs
  if xs.length % 2 = 1 then s.getD (xs.length / 2) 0
  else (s.getD (xs.length / 2 - 1) 0 + s.getD (xs.length / 2) 0) / 2

/-- `min_y_L` / `min_y_R`, lines 154 and 159. -/
def column_min_y (bs : List BBox) : ℚ := pyMinQ (bs.map BBox.y_start)

/-- `max_y_L` / `max_y_R`, lines 155 and 160. -/
def column_max_y (bs : List BBox) : ℚ := pyMaxQ (bs.map BBox.y_end)

/-- `height_L` / `height_R`, lines 156 and 161. -/
def column_height (bs : List BBox) : ℚ := column_max_y bs - column_min_y bs

/-- `vertical_overlap_amount`, line 168. -/
def vertical_overlap_amount (left right : List BBox) : ℚ :=
  max 0 (min (column_max_y left) (column_max_y right)
    - max (column_min_y left) (column_min_y right))

/-- `shorter_column_height`, line 169. -/
def shorter_column_height (left right : List BBox) : ℚ :=
  min (column_height left) (column_height right)

/-- Lines 150-177: vertical cohesion and span checks.
`MIN_COLUMN_HEIGHT_LAYOUT_RATIO = 0.3` (line 26),
`MIN_VERTICAL_OVERLAP_RATIO_OF_SHORTER_COLUMN = 0.4` (line 28).
When `shorter_column_height == 0` and the overlap is nonzero the Python falls
through both branches and returns `True` (lines 171-177). -/
def vertical_checks (left right : List BBox) (layout_height : ℚ) : Bool :=
  if column_height left < layout_height * (3/10) ∨
      column_height right < layout_height * (3/10) then false
  else if shorter_column_height left right = 0 then
    (if vertical_overlap_amount left right = 0 then false else true)
  else if vertical_overlap_amount left right / shorter_column_height left right
      < 2/5 then false
  else true

/-- Lines 137-177: validation of the left/right split.
`MIN_BOXES_PER_DETECTED_COLUMN = 2` (line 17),
`ALLOWED_INTER_COLUMN_MEDIAN_OVERLAP = 20` (line 23).  The emptiness check on
line 152 is kept even though it is subsumed by the length check. -/
def validate_columns (left_column_boxes right_column_boxes : List BBox)
    (layout_height : ℚ) : Bool :=
  if left_column_boxes.length < 2 ∨ right_column_boxes.length < 2 then false
  else if np_median (right_column_boxes.map BBox.x_start)
      - np_median (left_column_boxes.map BBox.x_end) < -20 then false
  else if left_column_boxes = [] ∨ right_column_boxes = [] then false
  else vertical_checks left_column_boxes right_column_boxes layout_height

/-- `detect_two_columns` (lines 57-177).  Constants:
`MIN_LAYOUT_HEIGHT_FOR_TWO_COLUMN = 300` (line 30), width bound `200`
(line 79), `MIN_BOXES_FOR_COLUMN_CONSIDERATION = 4` (line 15). -/
def detect_two_columns (layout : Layout) : Bool :=
  match layout.bbox_layout, layout.bbox_text with
  | some layout_bbox, some text_bboxes =>
    if text_bboxes = [] then false
    else if layout_bbox.y_end - layout_bbox.y_start < 300 ∨
        layout_bbox.x_end - layout_bbox.x_start < 200 then false
    else if (non_spanning_boxes layout_bbox text_bboxes).length < 4 then false
    else
      match potential_gutters layout_bbox
          ((sorted_boxes_by_cx (non_spanning_boxes layout_bbox text_bboxes)).map center_x) with
      | [] => false
      | g :: gs =>
        validate_columns
          ((sorted_boxes_by_cx (non_spanning_boxes layout_bbox text_bboxes)).take
            ((pyMaxGutter g gs).split_index + 1))
          ((sorted_boxes_by_cx (non_spanning_boxes layout_bbox text_bboxes)).drop
            ((pyMaxGutter g gs).split_index + 1))
          (layout_bbox.y_end - layout_bbox.y_start)
  | _, _ => false

/-- The body of `detect_two_columns` (lines 57-177) contains no assignment to
`layout`, its entries, or any module-level name; a call therefore produces the
verdict and leaves the argument exactly as it was.  This wrapper makes that
explicit as a state-passing call. -/
def detect_two_columns_call (layout : Layout) : Bool × Layout :=
  (detect_two_columns layout, layout)

/-- The x-coordinate of the layout's vertical center line. -/
def layoutCenterX (l : Layout) : ℚ :=
  match l.bbox_layout with
  | some lb => (lb.x_start + lb.x_end) / 2
  | none => 0

/-- Reflect a box's x-coordinates about the vertical line `x = c`
(y-coordinates untouched; the two x-coordinates swap roles so that
`x_start ≤ x_end` is preserved). -/
def mirrorBBox (c : ℚ) (b : BBox) : BBox :=
  ⟨2 * c - b.x_end, b.y_start, 2 * c - b.x_start, b.y_end⟩

/-- Mirror every text box's x-coordinates and the layout bounding box's
x-coordinates about the layout's vertical center line. -/
def mirrorLayout (l : Layout) : Layout :=
  ⟨l.bbox_layout.map (mirrorBBox (layoutCenterX l)),
   l.bbox_text.map (List.map (mirrorBBox (layoutCenterX l))),
   l.label, l.text⟩

/-- The candidate-gutter list that `detect_two_columns` builds for a layout
(empty when either geometry field is missing). -/
def layoutGutters (l : Layout) : List Gutter :=
  match l.bbox_layout, l.bbox_text with
  | some lb, some tbs =>
    potential_gutters lb ((sorted_boxes_by_cx (non_spanning_boxes lb tbs)).map center_x)
  | _, _ => []

/-- At most one candidate gutter attains the maximal `gap_width_centers`:
any two elements of the list that are both upper bounds for the whole list
coincide. -/
def uniqueMaxGutter (gs : List Gutter) : Prop :=
  ∀ g₁ ∈ gs, ∀ g₂ ∈ gs,
    (∀ g ∈ gs, g.gap_width_centers ≤ g₁.gap_width_centers) →
    (∀ g ∈ gs, g.gap_width_centers ≤ g₂.gap_width_centers) → g₁ = g₂

/-- Proof-support reformulation of one candidate-loop step acting on optional
centers (used to index the loop through `List.range`). -/
def gutter_step (layout_bbox : BBox) (i : ℕ) : Option ℚ → Option ℚ → Option Gutter
  | some cxl, some cxr => gutter_candidate layout_bbox i cxl cxr
  | _, _ => none

/-- The mirror image of a candidate gutter, for a sorted list of `n` centers
reflected about `x = c`: the gap keeps its width, its midpoint reflects, and
its split index `i` (between sorted positions `i` and `i+1`) becomes the
index `n-2-i` (between positions `n-1-(i+1)` and `n-1-i`). -/
def mirrorGutter (c : ℚ) (n : ℕ) (g : Gutter) : Gutter :=
  ⟨2 * c - g.gutter_x_candidate, g.gap_width_centers, n - 2 - g.split_index⟩

/-! ### Concrete inputs used by witnesses and counterexamples -/

def C1Box : BBox := ⟨0, 0, 1000, 100⟩

def C1Layout : Layout := ⟨some C1Box, some [⟨0, 0, 10, 10⟩], none, none⟩

def C5Box : BBox := ⟨0, 0, 1000, 800⟩

def C5Layout : Layout :=
  ⟨some C5Box, some [⟨100, 50, 400, 200⟩, ⟨600, 50, 900, 200⟩, ⟨100, 250, 400, 400⟩],
   none, none⟩

def LBoxPair : List BBox := [⟨100, 50, 400, 200⟩, ⟨100, 250, 400, 400⟩]

def RBoxPair : List BBox := [⟨600, 50, 900, 200⟩, ⟨600, 250, 900, 400⟩]

/-- A 1000×800 layout with five boxes whose sorted centers are
300, 440, 580, 600, 620: the two candidate gaps of width 140 tie for the
maximum.  Scanning left to right picks the left tie (split after one box:
too few boxes on the left, verdict `false`); the mirrored layout scans the
reversed candidates, picks the other tie, and validates (`true`). -/
def C4Layout : Layout :=
  ⟨some ⟨0, 0, 1000, 800⟩,
   some [⟨280, 100, 320, 150⟩, ⟨420, 650, 460, 700⟩, ⟨560, 650, 600, 700⟩,
         ⟨580, 400, 620, 450⟩, ⟨600, 100, 640, 150⟩],
   none, none⟩

/-- A clean two-column layout with a single candidate gutter (unique maximal
gap), used to witness the amended mirror-symmetry claim. -/
def C4WitnessLayout : Layout :=
  ⟨some ⟨0, 0, 1000, 800⟩,
   some [⟨100, 50, 400, 200⟩, ⟨100, 250, 400, 400⟩, ⟨100, 450, 400, 600⟩,
         ⟨600, 50, 900, 200⟩, ⟨600, 250, 900, 400⟩, ⟨600, 450, 900, 600⟩],
   none, none⟩

/-! ## Helper lemmas about the gutter selection -/

/-- The max-scan of line 128 returns an element of the scanned list. -/
theorem pyMaxGutter_mem : ∀ (gs : List Gutter) (g : Gutter), pyMaxGutter g gs ∈ g :: gs
  | [], g => by simp [pyMaxGutter]
  | g' :: t, g => by
    simp only [pyMaxGutter]
    by_cases h : g.gap_width_centers < g'.gap_width_centers
    · rw [if_pos h]
      exact List.mem_cons_of_mem g (pyMaxGutter_mem t g')
    · rw [if_neg h]
      rcases List.mem_cons.mp (pyMaxGutter_mem t g) with h' | h'
      · rw [h']
        exact List.mem_cons_self _ _
      · exact List.mem_cons_of_mem _ (List.mem_cons_of_mem _ h')

/-- The max-scan of line 128 returns an upper bound for the key. -/
theorem pyMaxGutter_isMax : ∀ (gs : List Gutter) (g : Gutter),
    ∀ x ∈ g :: gs, x.gap_width_centers ≤ (pyMaxGutter g gs).gap_width_centers
  | [], g => by
    intro x hx
    rcases List.mem_singleton.mp hx with rfl
    simp [pyMaxGutter]
  | g' :: t, g => by
    intro x hx
    simp only [pyMaxGutter]
    by_cases h : g.gap_width_centers < g'.gap_width_centers
    · rw [if_pos h]
      rcases List.mem_cons.mp hx with rfl | hx'
      · exact le_of_lt (lt_of_lt_of_le h
          (pyMaxGutter_isMax t g' g' (List.mem_cons_self _ _)))
      · exact pyMaxGutter_isMax t g' x hx'
    · rw [if_neg h]
      rcases List.mem_cons.mp hx with rfl | hx'
      · exact pyMaxGutter_isMax t x x (List.mem_cons_self _ _)
      · rcases List.mem_cons.mp hx' with rfl | hx''
        · exact le_trans (not_lt.mp h)
            (pyMaxGutter_isMax t g g (List.mem_cons_self _ _))
        · exact pyMaxGutter_isMax t g x (List.mem_cons_of_mem _ hx'')

/-- The max-scan of line 128 returns the first maximal element: everything
strictly before the returned element in the list has a strictly smaller key
(CPython `max` replaces the running best only on a strict increase). -/
theorem pyMaxGutter_first : ∀ (gs : List Gutter) (g : Gutter),
    ∃ i, ∃ hi : i < (g :: gs).length,
      (g :: gs).get ⟨i, hi⟩ = pyMaxGutter g gs ∧
      ∀ j, ∀ hj : j < i,
        ((g :: gs).get ⟨j, Nat.lt_trans hj hi⟩).gap_width_centers
          < (pyMaxGutter g gs).gap_width_centers
  | [], g => by
    refine ⟨0, by simp, by simp [pyMaxGutter], ?_⟩
    intro j hj
    omega
  | g' :: t, g => by
    by_cases h : g.gap_width_centers < g'.gap_width_centers
    · obtain ⟨i₀, hi₀, heq, hfirst⟩ := pyMaxGutter_first t g'
      refine ⟨i₀ + 1, by simpa using hi₀, ?_, ?_⟩
      · simpa only [pyMaxGutter, if_pos h] using heq
      · intro j hj
        simp only [pyMaxGutter, if_pos h]
        match j, hj with
        | 0, _ =>
          exact lt_of_lt_of_le h (pyMaxGutter_isMax t g' g' (List.mem_cons_self _ _))
        | j' + 1, hj =>
          exact hfirst j' (by omega)
    · obtain ⟨i₀, hi₀, heq, hfirst⟩ := pyMaxGutter_first t g
      match i₀, hi₀, heq, hfirst with
      | 0, hi₀, heq, hfirst =>
        refine ⟨0, by simp, ?_, ?_⟩
        · simpa only [pyMaxGutter, if_neg h] using heq
        · intro j hj
          omega
      | k + 1, hi₀, heq, hfirst =>
        refine ⟨k + 2, by simpa using hi₀, ?_, ?_⟩
        · simpa only [pyMaxGutter, if_neg h] using heq
        · intro j hj
          simp only [pyMaxGutter, if_neg h]
          match j, hj with
          | 0, _ => exact hfirst 0 (by omega)
          | 1, _ =>
            exact lt_of_le_of_lt (not_lt.mp h) (hfirst 0 (by omega))
          | j' + 2, hj =>
            exact hfirst (j' + 1) (by omega)

/-- Every candidate produced by the loop starting at index `i` records a
split index that is at least `i`. -/
theorem potential_gutters_from_le (lb : BBox) : ∀ (cs : List ℚ) (i : ℕ),
    ∀ x ∈ potential_gutters_from lb i cs, i ≤ x.split_index
  | [], _ => by simp [potential_gutters_from]
  | [a], _ => by simp [potential_gutters_from]
  | a :: b :: t, i => by
    intro x hx
    simp only [potential_gutters_from, List.mem_append] at hx
    rcases hx with hx | hx
    · unfold gutter_candidate at hx
      by_cases hc : lb.x_start + (lb.x_end - lb.x_start) * (1/4) ≤ (a + b) / 2 ∧
          (a + b) / 2 ≤ lb.x_start + (lb.x_end - lb.x_start) * (3/4) ∧ 0 < b - a
      · rw [if_pos hc] at hx
        rcases List.mem_singleton.mp (by simpa using hx) with rfl
        exact le_refl _
      · rw [if_neg hc] at hx
        simp at hx
    · exact le_trans (Nat.le_succ i) (potential_gutters_from_le lb (b :: t) (i + 1) x hx)

/-- The candidates of lines 102-121 are produced in strictly increasing
split-index order (equivalently, in ascending x-center order of the gaps), so
the first maximal candidate is the leftmost maximal one. -/
theorem potential_gutters_from_sorted (lb : BBox) : ∀ (cs : List ℚ) (i : ℕ),
    List.Pairwise (fun a b : Gutter => a.split_index < b.split_index)
      (potential_gutters_from lb i cs)
  | [], _ => by simp [potential_gutters_from]
  | [a], _ => by simp [potential_gutters_from]
  | a :: b :: t, i => by
    simp only [potential_gutters_from]
    rw [List.pairwise_append]
    refine ⟨?_, potential_gutters_from_sorted lb (b :: t) (i + 1), ?_⟩
    · unfold gutter_candidate
      by_cases hc : lb.x_start + (lb.x_end - lb.x_start) * (1/4) ≤ (a + b) / 2 ∧
          (a + b) / 2 ≤ lb.x_start + (lb.x_end - lb.x_start) * (3/4) ∧ 0 < b - a
      · rw [if_pos hc]
        simp
      · rw [if_neg hc]
        simp
    · intro x hx y hy
      unfold gutter_candidate at hx
      by_cases hc : lb.x_start + (lb.x_end - lb.x_start) * (1/4) ≤ (a + b) / 2 ∧
          (a + b) / 2 ≤ lb.x_start + (lb.x_end - lb.x_start) * (3/4) ∧ 0 < b - a
      · rw [if_pos hc] at hx
        rcases List.mem_singleton.mp (by simpa using hx) with rfl
        exact lt_of_lt_of_le (Nat.lt_succ_self i)
          (potential_gutters_from_le lb (b :: t) (i + 1) y hy)
      · rw [if_neg hc] at hx
        simp at hx

/-! ## Helper lemmas for the mirror symmetry -/

theorem mirrorBBox_width (c : ℚ) (b : BBox) :
    (mirrorBBox c b).x_end - (mirrorBBox c b).x_start = b.x_end - b.x_start := by
  simp only [mirrorBBox]
  ring

theorem mirrorBBox_y_start (c : ℚ) (b : BBox) :
    (mirrorBBox c b).y_start = b.y_start := rfl

theorem mirrorBBox_y_end (c : ℚ) (b : BBox) :
    (mirrorBBox c b).y_end = b.y_end := rfl

theorem center_x_mirrorBBox (c : ℚ) (b : BBox) :
    center_x (mirrorBBox c b) = 2 * c - center_x b := by
  simp only [mirrorBBox, center_x]
  ring

/-- Reflecting the layout box about its own vertical center line leaves it
unchanged (its two x-coordinates swap back into place). -/
theorem mirrorBBox_layout_self (lb : BBox) :
    mirrorBBox ((lb.x_start + lb.x_end) / 2) lb = lb := by
  cases lb
  simp only [mirrorBBox, BBox.mk.injEq]
  refine ⟨by ring, trivial, by ring, trivial⟩

/-- The spanning test reads only the box's width, which mirroring preserves. -/
theorem is_likely_spanning_box_mirror (c : ℚ) (b lb : BBox) :
    is_likely_spanning_box (mirrorBBox c b) lb = is_likely_spanning_box b lb := by
  unfold is_likely_spanning_box
  rw [mirrorBBox_width]

theorem non_spanning_boxes_mirror (c : ℚ) (lb : BBox) (tbs : List BBox) :
    non_spanning_boxes lb (tbs.map (mirrorBBox c)) =
      (non_spanning_boxes lb tbs).map (mirrorBBox c) := by
  unfold non_spanning_boxes
  rw [List.filter_map]
  congr 1
  apply List.filter_congr
  intro a _
  simp only [Function.comp_apply, is_likely_spanning_box_mirror]

/-- Reflecting a sorted list of rationals and reversing it sorts ascending
again. -/
theorem pairwise_le_reflect (c : ℚ) (l : List ℚ) (h : List.Pairwise (· ≤ ·) l) :
    List.Pairwise (· ≤ ·) ((l.map (fun v => 2 * c - v)).reverse) := by
  rw [List.pairwise_reverse, List.pairwise_map]
  exact h.imp (fun hab => by linarith)

/-- Two sorted lists of rationals that are permutations of each other are
equal. -/
theorem eq_of_perm_of_sorted_le (l₁ l₂ : List ℚ) (hp : l₁.Perm l₂)
    (hs₁ : List.Pairwise (· ≤ ·) l₁) (hs₂ : List.Pairwise (· ≤ ·) l₂) : l₁ = l₂ :=
  List.eq_of_perm_of_sorted hp hs₁ hs₂

/-- The center list of the sorted boxes is sorted. -/
theorem sorted_centers_sorted (bs : List BBox) :
    List.Pairwise (· ≤ ·) ((sorted_boxes_by_cx bs).map center_x) := by
  rw [List.pairwise_map]
  exact List.sorted_insertionSort cxLE bs

/-- Mirroring the boxes reverses (and reflects) the sorted center list. -/
theorem mirror_sorted_centers (c : ℚ) (bs : List BBox) :
    (sorted_boxes_by_cx (bs.map (mirrorBBox c))).map center_x =
      (((sorted_boxes_by_cx bs).map center_x).map (fun v => 2 * c - v)).reverse := by
  apply eq_of_perm_of_sorted_le
  · refine ((List.perm_insertionSort _ _).map _).trans ?_
    have h1 : (bs.map (mirrorBBox c)).map center_x
        = (bs.map center_x).map (fun v => 2 * c - v) := by
      rw [List.map_map, List.map_map]
      exact List.map_congr_left (fun b _ => center_x_mirrorBBox c b)
    rw [h1]
    refine (((List.perm_insertionSort cxLE bs).symm.map center_x).map _).trans ?_
    exact (List.reverse_perm _).symm
  · exact sorted_centers_sorted _
  · exact pairwise_le_reflect c _ (sorted_centers_sorted bs)

/-! ### The candidate list under reversal -/

theorem filterMap_cons_toList {α β : Type} (f : α → Option β) (a : α) (l : List α) :
    List.filterMap f (a :: l) = (f a).toList ++ List.filterMap f l := by
  rw [List.filterMap_cons]
  cases f a <;> simp

/-- The candidate loop as an indexed scan over `List.range`. -/
theorem potential_gutters_from_eq (lb : BBox) : ∀ (cs : List ℚ) (i : ℕ),
    potential_gutters_from lb i cs =
      (List.range (cs.length - 1)).filterMap
        (fun j => gutter_step lb (i + j) cs[j]? cs[j + 1]?)
  | [], i => by simp [potential_gutters_from]
  | [a], i => by simp [potential_gutters_from]
  | a :: b :: t, i => by
    have hrec := potential_gutters_from_eq lb (b :: t) (i + 1)
    have hlen2 : (b :: t).length - 1 = t.length := by simp
    rw [hlen2] at hrec
    simp only [potential_gutters_from]
    rw [hrec]
    have hlen : (a :: b :: t).length - 1 = t.length + 1 := by simp
    rw [hlen, List.range_succ_eq_map, filterMap_cons_toList, List.filterMap_map]
    have hhead : gutter_step lb (i + 0) (a :: b :: t)[0]? (a :: b :: t)[0 + 1]?
        = gutter_candidate lb i a b := by
      simp [gutter_step]
    rw [hhead]
    congr 1
    apply List.filterMap_congr
    intro x _
    simp only [Function.comp_apply, Nat.succ_eq_add_one, List.getElem?_cons_succ]
    have harith : i + 1 + x = i + (x + 1) := by omega
    rw [harith]

/-- The full candidate list as an indexed scan. -/
theorem potential_gutters_eq (lb : BBox) (cs : List ℚ) :
    potential_gutters lb cs =
      (List.range (cs.length - 1)).filterMap
        (fun j => gutter_step lb j cs[j]? cs[j + 1]?) := by
  unfold potential_gutters
  rw [potential_gutters_from_eq]
  congr 1
  funext j
  rw [Nat.zero_add]

theorem reverse_range_eq_map (m : ℕ) :
    (List.range m).reverse = (List.range m).map (fun j => m - 1 - j) := by
  apply List.ext_getElem
  · simp
  · intro i h1 h2
    simp [List.getElem_reverse]

theorem filterMap_range_reflect {γ : Type} (m : ℕ) (F G : ℕ → Option γ)
    (h : ∀ j, j < m → G j = F (m - 1 - j)) :
    (List.range m).filterMap G = ((List.range m).filterMap F).reverse := by
  rw [← List.filterMap_reverse, reverse_range_eq_map, List.filterMap_map]
  apply List.filterMap_congr
  intro a ha
  rw [List.mem_range] at ha
  exact h a ha

/-- The single-candidate test commutes with reflection about the layout's own
vertical center line: the central band `[x_start + W/4, x_start + 3W/4]` is
symmetric about `c = (x_start + x_end)/2` and gap widths are preserved. -/
theorem gutter_candidate_mirror (lb : BBox) (c : ℚ)
    (hc : 2 * c = lb.x_start + lb.x_end) (n k : ℕ) (u v : ℚ) :
    gutter_candidate lb (n - 2 - k) (2 * c - u) (2 * c - v) =
      (gutter_candidate lb k v u).map (mirrorGutter c n) := by
  unfold gutter_candidate
  have hiff :
      (lb.x_start + (lb.x_end - lb.x_start) * (1/4) ≤ ((2 * c - u) + (2 * c - v)) / 2 ∧
        ((2 * c - u) + (2 * c - v)) / 2
          ≤ lb.x_start + (lb.x_end - lb.x_start) * (3/4) ∧
        0 < (2 * c - v) - (2 * c - u)) ↔
      (lb.x_start + (lb.x_end - lb.x_start) * (1/4) ≤ (v + u) / 2 ∧
        (v + u) / 2 ≤ lb.x_start + (lb.x_end - lb.x_start) * (3/4) ∧
        0 < u - v) := by
    constructor
    · rintro ⟨h1, h2, h3⟩
      exact ⟨by linarith, by linarith, by linarith⟩
    · rintro ⟨h1, h2, h3⟩
      exact ⟨by linarith, by linarith, by linarith⟩
  by_cases h : lb.x_start + (lb.x_end - lb.x_start) * (1/4) ≤ (v + u) / 2 ∧
      (v + u) / 2 ≤ lb.x_start + (lb.x_end - lb.x_start) * (3/4) ∧ 0 < u - v
  · rw [if_pos (hiff.mpr h), if_pos h]
    simp only [Option.map, mirrorGutter, Gutter.mk.injEq, Option.some.injEq]
    refine ⟨by ring, by ring, trivial⟩
  · rw [if_neg (fun hh => h (hiff.mp hh)), if_neg h]
    rfl

/-- Reflecting and reversing the center list reverses the candidate list and
mirrors each candidate. -/
theorem potential_gutters_reflect (lb : BBox) (c : ℚ)
    (hc : 2 * c = lb.x_start + lb.x_end) (cs : List ℚ) :
    potential_gutters lb ((cs.map (fun v => 2 * c - v)).reverse) =
      ((potential_gutters lb cs).map (mirrorGutter c cs.length)).reverse := by
  rw [potential_gutters_eq, potential_gutters_eq, List.map_filterMap]
  have hlen : ((cs.map (fun v => 2 * c - v)).reverse).length = cs.length := by simp
  rw [hlen]
  apply filterMap_range_reflect
  intro j hj
  have hjlt : j < cs.length := by omega
  have hj1lt : j + 1 ≤ cs.length := hjlt
  have h1 : cs.length - 1 - j < cs.length := by omega
  have h2 : cs.length - 1 - (j + 1) < cs.length := by omega
  have e1 : ((cs.map (fun v => 2 * c - v)).reverse)[j]?
      = some (2 * c - cs.get ⟨cs.length - 1 - j, h1⟩) := by
    rw [List.getElem?_reverse (by simpa using hjlt), List.getElem?_map,
      List.length_map, List.getElem?_eq_getElem h1]
    rfl
  have e2 : ((cs.map (fun v => 2 * c - v)).reverse)[j + 1]?
      = some (2 * c - cs.get ⟨cs.length - 1 - (j + 1), h2⟩) := by
    rw [List.getElem?_reverse (by simpa using (by omega : j + 1 < cs.length)),
      List.getElem?_map, List.length_map, List.getElem?_eq_getElem h2]
    rfl
  have e3 : cs[cs.length - 1 - 1 - j]? = some (cs.get ⟨cs.length - 1 - (j + 1), h2⟩) := by
    rw [show cs.length - 1 - 1 - j = cs.length - 1 - (j + 1) by omega,
      List.getElem?_eq_getElem h2]
    rfl
  have e4 : cs[cs.length - 1 - 1 - j + 1]? = some (cs.get ⟨cs.length - 1 - j, h1⟩) := by
    rw [show cs.length - 1 - 1 - j + 1 = cs.length - 1 - j by omega,
      List.getElem?_eq_getElem h1]
    rfl
  rw [e1, e2, e3, e4]
  show gutter_candidate lb j _ _
      = (gutter_candidate lb (cs.length - 1 - 1 - j) _ _).map (mirrorGutter c cs.length)
  have := gutter_candidate_mirror lb c hc cs.length (cs.length - 1 - 1 - j)
    (cs.get ⟨cs.length - 1 - j, h1⟩) (cs.get ⟨cs.length - 1 - (j + 1), h2⟩)
  rw [show cs.length - 2 - (cs.length - 1 - 1 - j) = j by omega] at this
  exact this

/-! ### Splitting a sorted list at a strict gap -/

/-- In a center-sorted list, splitting after position `i` at a strict center
gap keeps exactly the boxes whose center is at most the center at `i`. -/
theorem sorted_take_eq_filter (s : List BBox) (hs : List.Pairwise cxLE s) (i : ℕ)
    (hi : i + 1 < s.length) (t : ℚ)
    (ht : t = center_x (s.get ⟨i, Nat.lt_of_succ_lt hi⟩))
    (hgap : t < center_x (s.get ⟨i + 1, hi⟩)) :
    s.take (i + 1) = s.filter (fun b => decide (center_x b ≤ t)) := by
  have hget := List.pairwise_iff_get.mp hs
  conv_rhs => rw [← List.take_append_drop (i + 1) s]
  rw [List.filter_append]
  have h1 : (s.take (i + 1)).filter (fun b => decide (center_x b ≤ t))
      = s.take (i + 1) := by
    rw [List.filter_eq_self]
    intro b hb
    obtain ⟨j, hj⟩ := List.mem_iff_getElem?.mp hb
    have hjlt : j < i + 1 := by
      have := List.getElem?_eq_some.mp hj
      obtain ⟨hl, _⟩ := this
      simpa using Nat.lt_of_lt_of_le hl (by simp [List.length_take])
    rw [List.getElem?_take_of_lt hjlt] at hj
    obtain ⟨hl, heq⟩ := List.getElem?_eq_some.mp hj
    rw [decide_eq_true_eq, ← heq, ht]
    rcases Nat.lt_or_ge j i with hj2 | hj2
    · exact hget ⟨j, hl⟩ ⟨i, Nat.lt_of_succ_lt hi⟩ hj2
    · have : j = i := by omega
      subst this
      exact le_refl _
  have h2 : (s.drop (i + 1)).filter (fun b => decide (center_x b ≤ t)) = [] := by
    rw [List.filter_eq_nil_iff]
    intro b hb
    obtain ⟨j, hj⟩ := List.mem_iff_getElem?.mp hb
    rw [List.getElem?_drop] at hj
    obtain ⟨hl, heq⟩ := List.getElem?_eq_some.mp hj
    rw [decide_eq_true_eq, ← heq]
    have hr : center_x (s.get ⟨i + 1, hi⟩) ≤ center_x (s.get ⟨i + 1 + j, hl⟩) := by
      rcases Nat.eq_zero_or_pos j with rfl | hjpos
      · exact le_refl _
      · exact hget ⟨i + 1, hi⟩ ⟨i + 1 + j, hl⟩ (Fin.mk_lt_mk.mpr (by omega))
    intro habs
    have : center_x (s.get ⟨i + 1 + j, hl⟩) ≤ t := habs
    linarith
  rw [h1, h2, List.append_nil]

/-- In a center-sorted list, dropping through position `i` at a strict center
gap keeps exactly the boxes whose center is at least the center at `i+1`. -/
theorem sorted_drop_eq_filter (s : List BBox) (hs : List.Pairwise cxLE s) (i : ℕ)
    (hi : i + 1 < s.length) (t : ℚ)
    (ht : t = center_x (s.get ⟨i + 1, hi⟩))
    (hgap : center_x (s.get ⟨i, Nat.lt_of_succ_lt hi⟩) < t) :
    s.drop (i + 1) = s.filter (fun b => decide (t ≤ center_x b)) := by
  have hget := List.pairwise_iff_get.mp hs
  conv_rhs => rw [← List.take_append_drop (i + 1) s]
  rw [List.filter_append]
  have h1 : (s.take (i + 1)).filter (fun b => decide (t ≤ center_x b)) = [] := by
    rw [List.filter_eq_nil_iff]
    intro b hb
    obtain ⟨j, hj⟩ := List.mem_iff_getElem?.mp hb
    have hjlt : j < i + 1 := by
      have := List.getElem?_eq_some.mp hj
      obtain ⟨hl, _⟩ := this
      simpa using Nat.lt_of_lt_of_le hl (by simp [List.length_take])
    rw [List.getElem?_take_of_lt hjlt] at hj
    obtain ⟨hl, heq⟩ := List.getElem?_eq_some.mp hj
    rw [decide_eq_true_eq, ← heq]
    have hleft : center_x (s.get ⟨j, hl⟩) ≤ center_x (s.get ⟨i, Nat.lt_of_succ_lt hi⟩) := by
      rcases Nat.lt_or_ge j i with hj2 | hj2
      · exact hget ⟨j, hl⟩ ⟨i, Nat.lt_of_succ_lt hi⟩ hj2
      · have : j = i := by omega
        subst this
        exact le_refl _
    intro habs
    have : t ≤ center_x (s.get ⟨j, hl⟩) := habs
    linarith
  have h2 : (s.drop (i + 1)).filter (fun b => decide (t ≤ center_x b))
      = s.drop (i + 1) := by
    rw [List.filter_eq_self]
    intro b hb
    obtain ⟨j, hj⟩ := List.mem_iff_getElem?.mp hb
    rw [List.getElem?_drop] at hj
    obtain ⟨hl, heq⟩ := List.getElem?_eq_some.mp hj
    rw [decide_eq_true_eq, ← heq, ht]
    rcases Nat.eq_zero_or_pos j with rfl | hjpos
    · exact le_refl _
    · exact hget ⟨i + 1, hi⟩ ⟨i + 1 + j, hl⟩ (Fin.mk_lt_mk.mpr (by omega))
  rw [h1, h2, List.nil_append]

/-- What membership in the candidate list tells us about the split index. -/
theorem mem_potential_gutters (lb : BBox) (cs : List ℚ) (x : Gutter)
    (hx : x ∈ potential_gutters lb cs) :
    ∃ h1 : x.split_index + 1 < cs.length,
      cs.get ⟨x.split_index, Nat.lt_of_succ_lt h1⟩ < cs.get ⟨x.split_index + 1, h1⟩ := by
  rw [potential_gutters_eq, List.mem_filterMap] at hx
  obtain ⟨j, hj, hstep⟩ := hx
  rw [List.mem_range] at hj
  have hj1 : j + 1 < cs.length := by omega
  have hjl : j < cs.length := by omega
  rw [List.getElem?_eq_getElem hjl, List.getElem?_eq_getElem hj1] at hstep
  simp only [gutter_step] at hstep
  unfold gutter_candidate at hstep
  split at hstep
  case isTrue hcond =>
    injection hstep with h
    subst h
    refine ⟨hj1, ?_⟩
    have h3 := hcond.2.2
    simp only [List.get_eq_getElem]
    linarith
  case isFalse hcond =>
    exact absurd hstep (by simp)

/-! ### Permutation and reflection invariance of the statistics -/

theorem foldl_min_spec : ∀ (t : List ℚ) (a : ℚ),
    (t.foldl min a = a ∨ t.foldl min a ∈ t) ∧ t.foldl min a ≤ a ∧
      ∀ y ∈ t, t.foldl min a ≤ y
  | [], a => by simp
  | b :: u, a => by
    obtain ⟨hmem, hle, hall⟩ := foldl_min_spec u (min a b)
    simp only [List.foldl_cons]
    refine ⟨?_, le_trans hle (min_le_left _ _), ?_⟩
    · rcases hmem with h | h
      · rcases min_cases a b with ⟨hm, _⟩ | ⟨hm, _⟩
        · left
          rw [h, hm]
        · right
          rw [h, hm]
          exact List.mem_cons_self _ _
      · exact Or.inr (List.mem_cons_of_mem _ h)
    · intro y hy
      rcases List.mem_cons.mp hy with rfl | hy'
      · exact le_trans hle (min_le_right _ _)
      · exact hall y hy'

theorem foldl_max_spec : ∀ (t : List ℚ) (a : ℚ),
    (t.foldl max a = a ∨ t.foldl max a ∈ t) ∧ a ≤ t.foldl max a ∧
      ∀ y ∈ t, y ≤ t.foldl max a
  | [], a => by simp
  | b :: u, a => by
    obtain ⟨hmem, hle, hall⟩ := foldl_max_spec u (max a b)
    simp only [List.foldl_cons]
    refine ⟨?_, le_trans (le_max_left _ _) hle, ?_⟩
    · rcases hmem with h | h
      · rcases max_cases a b with ⟨hm, _⟩ | ⟨hm, _⟩
        · left
          rw [h, hm]
        · right
          rw [h, hm]
          exact List.mem_cons_self _ _
      · exact Or.inr (List.mem_cons_of_mem _ h)
    · intro y hy
      rcases List.mem_cons.mp hy with rfl | hy'
      · exact le_trans (le_max_right _ _) hle
      · exact hall y hy'

theorem pyMinQ_mem : ∀ (l : List ℚ), l ≠ [] → pyMinQ l ∈ l
  | [], h => absurd rfl h
  | a :: t, _ => by
    obtain ⟨hmem, _, _⟩ := foldl_min_spec t a
    simp only [pyMinQ]
    rcases hmem with h | h
    · rw [h]
      exact List.mem_cons_self _ _
    · exact List.mem_cons_of_mem _ h

theorem pyMinQ_le : ∀ (l : List ℚ), ∀ y ∈ l, pyMinQ l ≤ y
  | [], y, hy => by simp at hy
  | a :: t, y, hy => by
    obtain ⟨_, hle, hall⟩ := foldl_min_spec t a
    simp only [pyMinQ]
    rcases List.mem_cons.mp hy with rfl | hy'
    · exact hle
    · exact hall y hy'

theorem pyMaxQ_mem : ∀ (l : List ℚ), l ≠ [] → pyMaxQ l ∈ l
  | [], h => absurd rfl h
  | a :: t, _ => by
    obtain ⟨hmem, _, _⟩ := foldl_max_spec t a
    simp only [pyMaxQ]
    rcases hmem with h | h
    · rw [h]
      exact List.mem_cons_self _ _
    · exact List.mem_cons_of_mem _ h

theorem pyMaxQ_le : ∀ (l : List ℚ), ∀ y ∈ l, y ≤ pyMaxQ l
  | [], y, hy => by simp at hy
  | a :: t, y, hy => by
    obtain ⟨_, hle, hall⟩ := foldl_max_spec t a
    simp only [pyMaxQ]
    rcases List.mem_cons.mp hy with rfl | hy'
    · exact hle
    · exact hall y hy'

theorem pyMinQ_perm (l₁ l₂ : List ℚ) (h : l₁.Perm l₂) : pyMinQ l₁ = pyMinQ l₂ := by
  rcases eq_or_ne l₁ [] with rfl | h1
  · rw [← h.nil_eq]
  · have h2 : l₂ ≠ [] := by
      intro he
      subst he
      exact h1 h.eq_nil
    exact le_antisymm
      (pyMinQ_le l₁ _ (h.mem_iff.mpr (pyMinQ_mem l₂ h2)))
      (pyMinQ_le l₂ _ (h.mem_iff.mp (pyMinQ_mem l₁ h1)))

theorem pyMaxQ_perm (l₁ l₂ : List ℚ) (h : l₁.Perm l₂) : pyMaxQ l₁ = pyMaxQ l₂ := by
  rcases eq_or_ne l₁ [] with rfl | h1
  · rw [← h.nil_eq]
  · have h2 : l₂ ≠ [] := by
      intro he
      subst he
      exact h1 h.eq_nil
    exact le_antisymm
      (pyMaxQ_le l₂ _ (h.mem_iff.mp (pyMaxQ_mem l₁ h1)))
      (pyMaxQ_le l₁ _ (h.mem_iff.mpr (pyMaxQ_mem l₂ h2)))

theorem np_median_perm (l₁ l₂ : List ℚ) (h : l₁.Perm l₂) : np_median l₁ = np_median l₂ := by
  have hs : List.insertionSort (· ≤ ·) l₁ = List.insertionSort (· ≤ ·) l₂ :=
    List.eq_of_perm_of_sorted
      ((List.perm_insertionSort _ _).trans (h.trans (List.perm_insertionSort _ _).symm))
      (List.sorted_insertionSort _ _) (List.sorted_insertionSort _ _)
  unfold np_median
  rw [hs, h.length_eq]

/-- Reflecting a list of rationals sorts to the reversed reflected sort. -/
theorem insertionSort_reflect (c : ℚ) (xs : List ℚ) :
    List.insertionSort (· ≤ ·) (xs.map (fun v => 2 * c - v)) =
      ((List.insertionSort (· ≤ ·) xs).map (fun v => 2 * c - v)).reverse := by
  apply eq_of_perm_of_sorted_le
  · refine (List.perm_insertionSort _ _).trans ?_
    refine (((List.perm_insertionSort (· ≤ ·) xs).symm).map _).trans ?_
    exact (List.reverse_perm _).symm
  · exact List.sorted_insertionSort _ _
  · exact pairwise_le_reflect c _ (List.sorted_insertionSort (· ≤ ·) xs)

/-- `np.median` anticommutes with reflection about `x = c`. -/
theorem np_median_reflect (c : ℚ) (xs : List ℚ) (hne : xs ≠ []) :
    np_median (xs.map (fun v => 2 * c - v)) = 2 * c - np_median xs := by
  have hpos : 0 < xs.length := List.length_pos.mpr hne
  have hlen : (List.insertionSort (· ≤ ·) xs).length = xs.length :=
    List.length_insertionSort _ _
  unfold np_median
  rw [insertionSort_reflect, List.length_map]
  by_cases hodd : xs.length % 2 = 1
  · rw [if_pos hodd, if_pos hodd]
    have hlt : xs.length / 2 < xs.length := by omega
    have hlt2 : xs.length / 2 < (List.insertionSort (· ≤ ·) xs).length := by omega
    have hrev : xs.length / 2
        < ((List.insertionSort (· ≤ ·) xs).map (fun v => 2 * c - v)).length := by
      simp only [List.length_map]
      omega
    rw [List.getD_eq_getElem?_getD, List.getElem?_reverse (by simpa using hrev),
      List.getElem?_map, List.length_map, hlen,
      show xs.length - 1 - xs.length / 2 = xs.length / 2 by omega,
      List.getElem?_eq_getElem hlt2, List.getD_eq_getElem?_getD,
      List.getElem?_eq_getElem hlt2]
    rfl
  · rw [if_neg hodd, if_neg hodd]
    have h2 : 2 ≤ xs.length := by omega
    have hlt : xs.length / 2 < (List.insertionSort (· ≤ ·) xs).length := by omega
    have hlt1 : xs.length / 2 - 1 < (List.insertionSort (· ≤ ·) xs).length := by omega
    have hrevlt : xs.length / 2
        < ((List.insertionSort (· ≤ ·) xs).map (fun v => 2 * c - v)).length := by
      simp only [List.length_map]
      omega
    have hrevlt1 : xs.length / 2 - 1
        < ((List.insertionSort (· ≤ ·) xs).map (fun v => 2 * c - v)).length := by
      simp only [List.length_map]
      omega
    rw [List.getD_eq_getElem?_getD, List.getD_eq_getElem?_getD,
      List.getElem?_reverse (by simpa using hrevlt1),
      List.getElem?_reverse (by simpa using hrevlt),
      List.getElem?_map, List.getElem?_map, List.length_map, hlen,
      show xs.length - 1 - (xs.length / 2 - 1) = xs.length / 2 by omega,
      show xs.length - 1 - xs.length / 2 = xs.length / 2 - 1 by omega,
      List.getElem?_eq_getElem hlt, List.getElem?_eq_getElem hlt1,
      List.getD_eq_getElem?_getD, List.getD_eq_getElem?_getD,
      List.getElem?_eq_getElem hlt1, List.getElem?_eq_getElem hlt]
    simp only [Option.map, Option.getD_some]
    ring

/-! ### The validator under mirroring -/

/-- Mirroring leaves all y-statistics of a column unchanged, and the
statistics only depend on the multiset of boxes. -/
theorem column_stats_mirror_perm (c : ℚ) (X Y : List BBox)
    (h : X.Perm (Y.map (mirrorBBox c))) :
    column_min_y X = column_min_y Y ∧ column_max_y X = column_max_y Y := by
  have e1 : (Y.map (mirrorBBox c)).map BBox.y_start = Y.map BBox.y_start := by
    rw [List.map_map]
    exact List.map_congr_left (fun b _ => rfl)
  have e2 : (Y.map (mirrorBBox c)).map BBox.y_end = Y.map BBox.y_end := by
    rw [List.map_map]
    exact List.map_congr_left (fun b _ => rfl)
  constructor
  · exact pyMinQ_perm _ _ ((h.map _).trans (e1 ▸ List.Perm.refl _))
  · exact pyMaxQ_perm _ _ ((h.map _).trans (e2 ▸ List.Perm.refl _))

/-- The vertical checks are symmetric in the two columns. -/
theorem vertical_checks_swap (left right : List BBox) (layout_height : ℚ) :
    vertical_checks right left layout_height =
      vertical_checks left right layout_height := by
  unfold vertical_checks
  have e1 : shorter_column_height right left = shorter_column_height left right :=
    min_comm _ _
  have e2 : vertical_overlap_amount right left = vertical_overlap_amount left right := by
    unfold vertical_overlap_amount
    rw [min_comm (column_max_y right), max_comm (column_min_y right)]
  rw [e1, e2]
  by_cases h1 : column_height right < layout_height * (3/10) ∨
      column_height left < layout_height * (3/10)
  · rw [if_pos h1]
    conv_rhs => rw [if_pos (Or.symm h1)]
  · rw [if_neg h1]
    conv_rhs => rw [if_neg (fun hh => h1 (Or.symm hh))]

/-- The full validator is invariant under mirroring the boxes and swapping
the two columns (the mirrored left group is a permutation of the mirrored
original right group and vice versa). -/
theorem validate_columns_mirror (c layout_height : ℚ)
    (left right left' right' : List BBox)
    (hL : left'.Perm (right.map (mirrorBBox c)))
    (hR : right'.Perm (left.map (mirrorBBox c))) :
    validate_columns left' right' layout_height =
      validate_columns left right layout_height := by
  have hlenL : left'.length = right.length := by
    rw [hL.length_eq, List.length_map]
  have hlenR : right'.length = left.length := by
    rw [hR.length_eq, List.length_map]
  unfold validate_columns
  rw [hlenL, hlenR]
  by_cases hlen : left.length < 2 ∨ right.length < 2
  · rw [if_pos hlen.symm, if_pos hlen]
  · rw [if_neg (fun hh => hlen hh.symm), if_neg hlen]
    have hL2 : 2 ≤ left.length := by omega
    have hR2 : 2 ≤ right.length := by omega
    have hLne : left ≠ [] := by
      intro he
      rw [he] at hL2
      simp at hL2
    have hRne : right ≠ [] := by
      intro he
      rw [he] at hR2
      simp at hR2
    have hmed1 : np_median (right'.map BBox.x_start)
        = 2 * c - np_median (left.map BBox.x_end) := by
      have e : (left.map (mirrorBBox c)).map BBox.x_start
          = (left.map BBox.x_end).map (fun v => 2 * c - v) := by
        rw [List.map_map, List.map_map]
        exact List.map_congr_left (fun b _ => rfl)
      have hperm := hR.map BBox.x_start
      rw [e] at hperm
      rw [np_median_perm _ _ hperm]
      exact np_median_reflect c _ (by simp [hLne])
    have hmed2 : np_median (left'.map BBox.x_end)
        = 2 * c - np_median (right.map BBox.x_start) := by
      have e : (right.map (mirrorBBox c)).map BBox.x_end
          = (right.map BBox.x_start).map (fun v => 2 * c - v) := by
        rw [List.map_map, List.map_map]
        exact List.map_congr_left (fun b _ => rfl)
      have hperm := hL.map BBox.x_end
      rw [e] at hperm
      rw [np_median_perm _ _ hperm]
      exact np_median_reflect c _ (by simp [hRne])
    rw [hmed1, hmed2,
      show (2 * c - np_median (left.map BBox.x_end))
          - (2 * c - np_median (right.map BBox.x_start))
          = np_median (right.map BBox.x_start) - np_median (left.map BBox.x_end)
        from by ring]
    by_cases hsep : np_median (right.map BBox.x_start)
        - np_median (left.map BBox.x_end) < -20
    · rw [if_pos hsep, if_pos hsep]
    · rw [if_neg hsep, if_neg hsep]
      have hL'ne : left' ≠ [] := by
        intro he
        rw [he] at hlenL
        simp at hlenL
        omega
      have hR'ne : right' ≠ [] := by
        intro he
        rw [he] at hlenR
        simp at hlenR
        omega
      rw [if_neg (by rintro (he | he) <;> [exact hL'ne he; exact hR'ne he]),
        if_neg (by rintro (he | he) <;> [exact hLne he; exact hRne he])]
      obtain ⟨hminL, hmaxL⟩ := column_stats_mirror_perm c left' right hL
      obtain ⟨hminR, hmaxR⟩ := column_stats_mirror_perm c right' left hR
      have : vertical_checks left' right' layout_height
          = vertical_checks right left layout_height := by
        unfold vertical_checks shorter_column_height vertical_overlap_amount
          column_height
        rw [hminL, hmaxL, hminR, hmaxR]
      rw [this, vertical_checks_swap]

/-! ### The split groups under mirroring -/

/-- Splitting the mirrored sorted sequence at the mirrored split index
produces, up to permutation, the mirror images of the original right and left
groups.  `i` is the original split index, sitting at a strict center gap. -/
theorem mirror_group_perm (c : ℚ) (ns : List BBox) (i : ℕ)
    (h1 : i + 1 < ((sorted_boxes_by_cx ns).map center_x).length)
    (hgap : ((sorted_boxes_by_cx ns).map center_x).get ⟨i, Nat.lt_of_succ_lt h1⟩
      < ((sorted_boxes_by_cx ns).map center_x).get ⟨i + 1, h1⟩) :
    ((sorted_boxes_by_cx (ns.map (mirrorBBox c))).take
        (((sorted_boxes_by_cx ns).map center_x).length - 2 - i + 1)).Perm
      (((sorted_boxes_by_cx ns).drop (i + 1)).map (mirrorBBox c)) ∧
    ((sorted_boxes_by_cx (ns.map (mirrorBBox c))).drop
        (((sorted_boxes_by_cx ns).map center_x).length - 2 - i + 1)).Perm
      (((sorted_boxes_by_cx ns).take (i + 1)).map (mirrorBBox c)) := by
  set s := sorted_boxes_by_cx ns with hsdef
  set s' := sorted_boxes_by_cx (ns.map (mirrorBBox c)) with hs'def
  have hcs' : s'.map center_x = ((s.map center_x).map (fun v => 2 * c - v)).reverse :=
    mirror_sorted_centers c ns
  have hslen : s.length = ns.length := List.length_insertionSort _ _
  have hs'len : s'.length = s.length := by
    have h := List.length_insertionSort cxLE (ns.map (mirrorBBox c))
    rw [List.length_map] at h
    rw [← hslen] at h
    exact h
  have hn : (s.map center_x).length = s.length := List.length_map _ _
  have hile : i + 1 < s.length := by omega
  have hgetcongr : ∀ (a b : ℕ) (ha : a < s.length) (hb : b < s.length), a = b →
      s.get ⟨a, ha⟩ = s.get ⟨b, hb⟩ := by
    intro a b ha hb h
    subst h
    rfl
  have hθR : ((s.map center_x)).get ⟨i + 1, h1⟩
      = center_x (s.get ⟨i + 1, hile⟩) := by
    simp [List.get_eq_getElem]
  have hθL : ((s.map center_x)).get ⟨i, Nat.lt_of_succ_lt h1⟩
      = center_x (s.get ⟨i, Nat.lt_of_succ_lt hile⟩) := by
    simp [List.get_eq_getElem]
  have hgap2 : center_x (s.get ⟨i, Nat.lt_of_succ_lt hile⟩)
      < center_x (s.get ⟨i + 1, hile⟩) := by
    rw [← hθL, ← hθR]
    exact hgap
  have hi' : (s.map center_x).length - 2 - i + 1 = s.length - 2 - i + 1 := by omega
  rw [hi']
  -- center values at positions of the mirrored sorted list
  have hval : ∀ (j : ℕ) (hj : j < s'.length) (hj' : s.length - 1 - j < s.length),
      center_x (s'.get ⟨j, hj⟩)
        = 2 * c - center_x (s.get ⟨s.length - 1 - j, hj'⟩) := by
    intro j hj hj'
    have hj2 : j < (s'.map center_x).length := by
      rw [List.length_map]
      exact hj
    have e1 : (s'.map center_x)[j]? = some (center_x (s'.get ⟨j, hj⟩)) := by
      rw [List.getElem?_eq_getElem hj2]
      simp [List.get_eq_getElem]
    have hrevlen : j < ((s.map center_x).map (fun v => 2 * c - v)).length := by
      simp only [List.length_map]
      omega
    have e2 : (s'.map center_x)[j]?
        = some (2 * c - center_x (s.get ⟨s.length - 1 - j, hj'⟩)) := by
      rw [hcs', List.getElem?_reverse hrevlen]
      rw [show ((s.map center_x).map (fun v => 2 * c - v)).length - 1 - j
          = s.length - 1 - j by simp only [List.length_map]]
      rw [List.getElem?_map, List.getElem?_map, List.getElem?_eq_getElem hj']
      simp [Option.map, List.get_eq_getElem]
    exact Option.some.inj (e1.symm.trans e2)
  have hi'lt0 : s.length - 2 - i < s'.length := by omega
  have hi'succ : (s.length - 2 - i) + 1 < s'.length := by omega
  have hvL : center_x (s'.get ⟨s.length - 2 - i, hi'lt0⟩)
      = 2 * c - center_x (s.get ⟨i + 1, hile⟩) := by
    have harg : s.length - 1 - (s.length - 2 - i) < s.length := by omega
    rw [hval (s.length - 2 - i) hi'lt0 harg,
      hgetcongr _ _ harg hile (by omega)]
  have hvR : center_x (s'.get ⟨(s.length - 2 - i) + 1, hi'succ⟩)
      = 2 * c - center_x (s.get ⟨i, Nat.lt_of_succ_lt hile⟩) := by
    have harg : s.length - 1 - ((s.length - 2 - i) + 1) < s.length := by omega
    rw [hval ((s.length - 2 - i) + 1) hi'succ harg,
      hgetcongr _ _ harg (Nat.lt_of_succ_lt hile) (by omega)]
  have hs'sorted : List.Pairwise cxLE s' := List.sorted_insertionSort cxLE _
  have hssorted : List.Pairwise cxLE s := List.sorted_insertionSort cxLE _
  -- the threshold descriptions of the primed split
  have htake' := sorted_take_eq_filter s' hs'sorted (s.length - 2 - i) hi'succ
    (2 * c - center_x (s.get ⟨i + 1, hile⟩)) (by rw [← hvL])
    (by rw [hvR]; linarith)
  have hdrop' := sorted_drop_eq_filter s' hs'sorted (s.length - 2 - i) hi'succ
    (2 * c - center_x (s.get ⟨i, Nat.lt_of_succ_lt hile⟩)) (by rw [← hvR])
    (by show center_x (s'.get ⟨s.length - 2 - i, hi'lt0⟩)
          < 2 * c - center_x (s.get ⟨i, Nat.lt_of_succ_lt hile⟩)
        rw [hvL]
        linarith)
  -- the threshold descriptions of the original split
  have htake := sorted_take_eq_filter s hssorted i hile
    (center_x (s.get ⟨i, Nat.lt_of_succ_lt hile⟩)) rfl hgap2
  have hdrop := sorted_drop_eq_filter s hssorted i hile
    (center_x (s.get ⟨i + 1, hile⟩)) rfl hgap2
  have hsperm : s'.Perm (ns.map (mirrorBBox c)) := List.perm_insertionSort _ _
  have hnsperm : s.Perm ns := List.perm_insertionSort _ _
  constructor
  · rw [htake']
    refine (hsperm.filter _).trans ?_
    rw [List.filter_map]
    have hcongr : (ns.filter
          ((fun b => decide (center_x b ≤ 2 * c - center_x (s.get ⟨i + 1, hile⟩)))
            ∘ mirrorBBox c))
        = ns.filter (fun b => decide (center_x (s.get ⟨i + 1, hile⟩) ≤ center_x b)) := by
      apply List.filter_congr
      intro b _
      simp only [Function.comp_apply, center_x_mirrorBBox]
      apply decide_eq_decide.mpr
      constructor <;> intro h <;> linarith
    rw [hcongr]
    refine (List.Perm.map _ (hnsperm.symm.filter _)).trans ?_
    rw [← hdrop]
  · rw [hdrop']
    refine (hsperm.filter _).trans ?_
    rw [List.filter_map]
    have hcongr : (ns.filter
          ((fun b => decide (2 * c - center_x (s.get ⟨i, Nat.lt_of_succ_lt hile⟩)
              ≤ center_x b)) ∘ mirrorBBox c))
        = ns.filter (fun b =>
            decide (center_x b ≤ center_x (s.get ⟨i, Nat.lt_of_succ_lt hile⟩))) := by
      apply List.filter_congr
      intro b _
      simp only [Function.comp_apply, center_x_mirrorBBox]
      apply decide_eq_decide.mpr
      constructor <;> intro h <;> linarith
    rw [hcongr]
    refine (List.Perm.map _ (hnsperm.symm.filter _)).trans ?_
    rw [← htake]

/-- When the maximal gap width is attained by exactly one candidate, the
first-maximum scan commutes with any gap-width-preserving relabelling of the
candidate list (in particular with mirroring, which reverses the scan
order). -/
theorem pyMaxGutter_unique (g : Gutter) (gs : List Gutter)
    (g' : Gutter) (gs' : List Gutter) (φ : Gutter → Gutter)
    (hφ : ∀ x, (φ x).gap_width_centers = x.gap_width_centers)
    (hAB : (g' :: gs').Perm ((g :: gs).map φ))
    (hu : uniqueMaxGutter (g :: gs)) :
    pyMaxGutter g' gs' = φ (pyMaxGutter g gs) := by
  have hbmem : pyMaxGutter g gs ∈ g :: gs := pyMaxGutter_mem gs g
  have hbmax := pyMaxGutter_isMax gs g
  have hb'mem : pyMaxGutter g' gs' ∈ g' :: gs' := pyMaxGutter_mem gs' g'
  have hb'max := pyMaxGutter_isMax gs' g'
  obtain ⟨a₀, ha₀mem, ha₀eq⟩ := List.mem_map.mp (hAB.mem_iff.mp hb'mem)
  have ha₀max : ∀ x ∈ g :: gs, x.gap_width_centers ≤ a₀.gap_width_centers := by
    intro x hx
    have hmem : φ x ∈ g' :: gs' := hAB.mem_iff.mpr (List.mem_map_of_mem φ hx)
    calc x.gap_width_centers = (φ x).gap_width_centers := (hφ x).symm
      _ ≤ (pyMaxGutter g' gs').gap_width_centers := hb'max _ hmem
      _ = a₀.gap_width_centers := by rw [← ha₀eq, hφ]
  have heq : a₀ = pyMaxGutter g gs := hu a₀ ha₀mem _ hbmem ha₀max hbmax
  rw [← ha₀eq, heq]

/-! ## Claims -/

/-- **C1.** For every layout whose layout bounding box yields
`layout_height < 300` or `layout_width < 200`, `detect_two_columns` returns
`false`, regardless of how many text boxes the layout contains or how they
are arranged (lines 79-80). -/
theorem C1_too_small_layout_false (l : Layout) (lb : BBox)
    (hb : l.bbox_layout = some lb)
    (hsz : lb.y_end - lb.y_start < 300 ∨ lb.x_end - lb.x_start < 200) :
    detect_two_columns l = false := by
  cases htb : l.bbox_text with
  | none => simp only [detect_two_columns, hb, htb]
  | some tbs =>
    simp only [detect_two_columns, hb, htb]
    by_cases he : tbs = []
    · rw [if_pos he]
    · rw [if_neg he, if_pos hsz]

/-- Witness for C1 at a concrete 1000×100 layout. -/
theorem C1_witness :
    C1Layout.bbox_layout = some C1Box ∧
    (C1Box.y_end - C1Box.y_start < 300 ∨ C1Box.x_end - C1Box.x_start < 200) ∧
    detect_two_columns C1Layout = false :=
  ⟨rfl, Or.inl (by norm_num [C1Box]),
    C1_too_small_layout_false C1Layout C1Box rfl (Or.inl (by norm_num [C1Box]))⟩

/-- **C2, counterexample.**  The claim says that with
`width(layout_bbox) == 0` a box is reported spanning iff its width exceeds
700px.  On the code, a zero-width layout makes `_is_likely_spanning_box`
return `False` immediately (lines 43-44), even for a box of width 800. -/
theorem C2_counterexample :
    is_likely_spanning_box ⟨0, 0, 800, 10⟩ ⟨5, 0, 5, 10⟩ = false ∧
    (⟨5, 0, 5, 10⟩ : BBox).x_end - (⟨5, 0, 5, 10⟩ : BBox).x_start = 0 ∧
    (700 : ℚ) < (⟨0, 0, 800, 10⟩ : BBox).x_end - (⟨0, 0, 800, 10⟩ : BBox).x_start := by
  norm_num [is_likely_spanning_box]

/-- **C2, amended.** For every box and layout bounding box with
`width(layout_bbox) == 0`, `is_spanning` reports the box as not spanning,
regardless of the box's width: both the relative-width rule and the
absolute-width rule are skipped (lines 43-44). -/
theorem C2_zero_width_layout_never_spanning (text_bbox layout_bbox : BBox)
    (h : layout_bbox.x_end - layout_bbox.x_start = 0) :
    is_likely_spanning_box text_bbox layout_bbox = false := by
  unfold is_likely_spanning_box
  rw [if_pos h]

/-- Witness for the amended C2 on a zero-width layout and an 800px-wide box. -/
theorem C2_witness :
    (⟨5, 0, 5, 10⟩ : BBox).x_end - (⟨5, 0, 5, 10⟩ : BBox).x_start = 0 ∧
    is_likely_spanning_box ⟨0, 0, 800, 10⟩ ⟨5, 0, 5, 10⟩ = false :=
  ⟨by norm_num,
    C2_zero_width_layout_never_spanning ⟨0, 0, 800, 10⟩ ⟨5, 0, 5, 10⟩ (by norm_num)⟩

/-- **C3.** The candidate gaps are generated in ascending x-center order
(strictly increasing split index), the classifier's `max` scan selects a
candidate of maximal `gap_width_centers` such that every candidate generated
before it (hence every candidate further left) has a strictly smaller gap
width, and the selected candidate's index `i` partitions the sorted sequence
into the left group `0..i` (`take (i+1)`) and the right group `i+1..end`
(`drop (i+1)`), which together restore the sorted sequence. -/
theorem C3_leftmost_max_gap_selected (lb : BBox) (centers : List ℚ)
    (g : Gutter) (gs : List Gutter) (s : List BBox) :
    List.Pairwise (fun a b : Gutter => a.split_index < b.split_index)
      (potential_gutters lb centers) ∧
    pyMaxGutter g gs ∈ g :: gs ∧
    (∀ x ∈ g :: gs, x.gap_width_centers ≤ (pyMaxGutter g gs).gap_width_centers) ∧
    (∃ i, ∃ hi : i < (g :: gs).length,
      (g :: gs).get ⟨i, hi⟩ = pyMaxGutter g gs ∧
      ∀ j, ∀ hj : j < i,
        ((g :: gs).get ⟨j, Nat.lt_trans hj hi⟩).gap_width_centers
          < (pyMaxGutter g gs).gap_width_centers) ∧
    s.take ((pyMaxGutter g gs).split_index + 1)
      ++ s.drop ((pyMaxGutter g gs).split_index + 1) = s :=
  ⟨potential_gutters_from_sorted lb centers 0,
    pyMaxGutter_mem gs g,
    pyMaxGutter_isMax gs g,
    pyMaxGutter_first gs g,
    List.take_append_drop _ s⟩

/-- **C4, counterexample.**  The claim asserts that mirroring every box's
x-coordinates and the layout's about the layout's vertical center line
preserves the verdict.  With two candidate gaps tied for the maximal width,
the first-maximum scan of line 128 picks different gutters on the original
and on the mirrored layout, and the verdicts differ. -/
theorem C4_counterexample :
    detect_two_columns (mirrorLayout C4Layout) ≠ detect_two_columns C4Layout := by
  have h1 : detect_two_columns C4Layout = false := by
    norm_num [detect_two_columns, C4Layout, non_spanning_boxes, is_likely_spanning_box,
      sorted_boxes_by_cx, List.insertionSort, List.orderedInsert, cxLE, center_x,
      potential_gutters, potential_gutters_from, gutter_candidate, pyMaxGutter,
      validate_columns, np_median, vertical_checks, column_height, column_max_y,
      column_min_y, pyMinQ, pyMaxQ, shorter_column_height, vertical_overlap_amount,
      List.cons_ne_nil, ne_eq]
  have h2 : detect_two_columns (mirrorLayout C4Layout) = true := by
    norm_num [detect_two_columns, mirrorLayout, mirrorBBox, layoutCenterX, C4Layout,
      non_spanning_boxes, is_likely_spanning_box,
      sorted_boxes_by_cx, List.insertionSort, List.orderedInsert, cxLE, center_x,
      potential_gutters, potential_gutters_from, gutter_candidate, pyMaxGutter,
      validate_columns, np_median, vertical_checks, column_height, column_max_y,
      column_min_y, pyMinQ, pyMaxQ, shorter_column_height, vertical_overlap_amount,
      List.cons_ne_nil, ne_eq]
  rw [h1, h2]
  simp

/-- **C4, amended.** For every layout input in which the maximal candidate
gap width inside the central band is attained by exactly one candidate,
mirroring every text box's x-coordinates and the layout bounding box's
x-coordinates about the layout's vertical center line, then re-evaluating
`detect_two_columns`, yields the same boolean verdict as on the original
input.  (With tied maximal gaps the verdicts may differ, see the
counterexample: the scan picks the first maximum and mirroring reverses the
scan order.) -/
theorem C4_mirror_preserves_verdict (l : Layout)
    (hu : uniqueMaxGutter (layoutGutters l)) :
    detect_two_columns (mirrorLayout l) = detect_two_columns l := by
  cases hb : l.bbox_layout with
  | none =>
    cases ht : l.bbox_text with
    | none => simp [detect_two_columns, mirrorLayout, hb, ht]
    | some tbs => simp [detect_two_columns, mirrorLayout, hb, ht]
  | some lb =>
    cases ht : l.bbox_text with
    | none => simp [detect_two_columns, mirrorLayout, hb, ht]
    | some tbs =>
      set c : ℚ := (lb.x_start + lb.x_end) / 2 with hcdef
      have hc2 : 2 * c = lb.x_start + lb.x_end := by
        rw [hcdef]
        ring
      have hcX : layoutCenterX l = c := by
        simp [layoutCenterX, hb]
      have hml : (mirrorLayout l).bbox_layout = some lb := by
        simp only [mirrorLayout, hb, hcX, Option.map]
        rw [hcdef, mirrorBBox_layout_self]
      have hmt : (mirrorLayout l).bbox_text = some (tbs.map (mirrorBBox c)) := by
        simp only [mirrorLayout, ht, hcX, Option.map]
      simp only [detect_two_columns, hml, hmt, hb, ht]
      by_cases he : tbs = []
      · rw [if_pos (by simp [he]), if_pos he]
      · rw [if_neg (by simp [he]), if_neg he]
        by_cases hsz : lb.y_end - lb.y_start < 300 ∨ lb.x_end - lb.x_start < 200
        · rw [if_pos hsz, if_pos hsz]
        · rw [if_neg hsz, if_neg hsz]
          rw [non_spanning_boxes_mirror c lb tbs, List.length_map]
          by_cases hcount : (non_spanning_boxes lb tbs).length < 4
          · rw [if_pos hcount, if_pos hcount]
          · rw [if_neg hcount, if_neg hcount]
            rw [mirror_sorted_centers c (non_spanning_boxes lb tbs)]
            rw [potential_gutters_reflect lb c hc2]
            have hlg : layoutGutters l = potential_gutters lb
                ((sorted_boxes_by_cx (non_spanning_boxes lb tbs)).map center_x) := by
              simp [layoutGutters, hb, ht]
            rw [hlg] at hu
            cases hG : potential_gutters lb
                ((sorted_boxes_by_cx (non_spanning_boxes lb tbs)).map center_x) with
            | nil => simp
            | cons g gs =>
              rw [hG] at hu
              cases hB : ((g :: gs).map (mirrorGutter c
                  ((sorted_boxes_by_cx (non_spanning_boxes lb tbs)).map
                    center_x).length)).reverse with
              | nil => exact absurd hB (by simp)
              | cons g₂ gs₂ =>
                dsimp only
                have hAB : (g₂ :: gs₂).Perm ((g :: gs).map (mirrorGutter c
                    ((sorted_boxes_by_cx (non_spanning_boxes lb tbs)).map
                      center_x).length)) := by
                  rw [← hB]
                  exact List.reverse_perm _
                have hsel : pyMaxGutter g₂ gs₂
                    = mirrorGutter c ((sorted_boxes_by_cx
                        (non_spanning_boxes lb tbs)).map center_x).length
                      (pyMaxGutter g gs) :=
                  pyMaxGutter_unique g gs g₂ gs₂ _ (fun _ => rfl) hAB hu
                rw [hsel]
                simp only [mirrorGutter]
                have hbestmem : pyMaxGutter g gs ∈ potential_gutters lb
                    ((sorted_boxes_by_cx (non_spanning_boxes lb tbs)).map
                      center_x) := by
                  rw [hG]
                  exact pyMaxGutter_mem gs g
                obtain ⟨h1, hgap⟩ := mem_potential_gutters lb _ _ hbestmem
                obtain ⟨hTake, hDrop⟩ := mirror_group_perm c
                  (non_spanning_boxes lb tbs) (pyMaxGutter g gs).split_index h1 hgap
                exact validate_columns_mirror c _ _ _ _ _ hTake hDrop

/-- Witness for the amended C4: a clean two-column layout whose candidate
list is a single gutter, so the maximal gap is unique and the verdicts
agree. -/
theorem C4_witness :
    uniqueMaxGutter (layoutGutters C4WitnessLayout) ∧
    detect_two_columns (mirrorLayout C4WitnessLayout)
      = detect_two_columns C4WitnessLayout := by
  have huw : uniqueMaxGutter (layoutGutters C4WitnessLayout) := by
    have hval : layoutGutters C4WitnessLayout
        = [⟨500, 500, 2⟩] := by
      norm_num [layoutGutters, C4WitnessLayout, non_spanning_boxes,
        is_likely_spanning_box, sorted_boxes_by_cx, List.insertionSort,
        List.orderedInsert, cxLE, center_x, potential_gutters,
        potential_gutters_from, gutter_candidate]
    rw [hval]
    intro g₁ h₁ g₂ h₂ _ _
    rw [List.mem_singleton.mp h₁, List.mem_singleton.mp h₂]
  exact ⟨huw, C4_mirror_preserves_verdict C4WitnessLayout huw⟩

/-- **C5.** For every layout input, `detect_two_columns` returns `false`
whenever fewer than 4 boxes remain after removing spanning boxes
(lines 88-89; `MIN_BOXES_FOR_COLUMN_CONSIDERATION = 4`). -/
theorem C5_insufficient_boxes_false (l : Layout) (lb : BBox) (tbs : List BBox)
    (hb : l.bbox_layout = some lb) (ht : l.bbox_text = some tbs)
    (hcount : (non_spanning_boxes lb tbs).length < 4) :
    detect_two_columns l = false := by
  simp only [detect_two_columns, hb, ht]
  by_cases he : tbs = []
  · rw [if_pos he]
  · rw [if_neg he]
    by_cases hsz : lb.y_end - lb.y_start < 300 ∨ lb.x_end - lb.x_start < 200
    · rw [if_pos hsz]
    · rw [if_neg hsz, if_pos hcount]

/-- Witness for C5: three non-spanning boxes in a large layout. -/
theorem C5_witness :
    C5Layout.bbox_layout = some C5Box ∧
    C5Layout.bbox_text =
      some [⟨100, 50, 400, 200⟩, ⟨600, 50, 900, 200⟩, ⟨100, 250, 400, 400⟩] ∧
    (non_spanning_boxes C5Box
      [⟨100, 50, 400, 200⟩, ⟨600, 50, 900, 200⟩, ⟨100, 250, 400, 400⟩]).length < 4 ∧
    detect_two_columns C5Layout = false :=
  ⟨rfl, rfl,
    by norm_num [non_spanning_boxes, is_likely_spanning_box, C5Box],
    C5_insufficient_boxes_false C5Layout C5Box _ rfl rfl
      (by norm_num [non_spanning_boxes, is_likely_spanning_box, C5Box])⟩

/-- **C7.** For every layout whose `bbox_layout` entry is absent or falsy, or
whose `bbox_text` entry is absent or the empty list, `detect_two_columns`
returns `false`; it is a total function, so no exception is possible
(lines 69-73). -/
theorem C7_missing_geometry_false (l : Layout)
    (h : l.bbox_layout = none ∨ l.bbox_text = none ∨ l.bbox_text = some []) :
    detect_two_columns l = false := by
  rcases h with h | h | h
  · cases ht : l.bbox_text <;> simp only [detect_two_columns, h, ht]
  · cases hb : l.bbox_layout <;> simp only [detect_two_columns, h, hb]
  · cases hb : l.bbox_layout <;> simp [detect_two_columns, h, hb]

/-- Witness for C7 at a layout with an empty text-box list. -/
theorem C7_witness :
    ((⟨some ⟨0, 0, 1000, 800⟩, some [], none, none⟩ : Layout).bbox_layout = none ∨
      (⟨some ⟨0, 0, 1000, 800⟩, some [], none, none⟩ : Layout).bbox_text = none ∨
      (⟨some ⟨0, 0, 1000, 800⟩, some [], none, none⟩ : Layout).bbox_text = some []) ∧
    detect_two_columns ⟨some ⟨0, 0, 1000, 800⟩, some [], none, none⟩ = false :=
  ⟨Or.inr (Or.inr rfl),
    C7_missing_geometry_false ⟨some ⟨0, 0, 1000, 800⟩, some [], none, none⟩
      (Or.inr (Or.inr rfl))⟩

/-- **C8.** Two evaluations of `detect_two_columns` on identical geometry
return identical boolean results: the call reads no process-wide state, so
calling it again on the state left behind by a first call yields the same
verdict. -/
theorem C8_deterministic (l : Layout) :
    (detect_two_columns_call ((detect_two_columns_call l).2)).1 =
      (detect_two_columns_call l).1 := rfl

/-- **C9.** `detect_two_columns` leaves the layout value unchanged: the
layout bounding box, the text-box list, and every other entry of the input
are identical before and after the call. -/
theorem C9_no_mutation (l : Layout) : (detect_two_columns_call l).2 = l := rfl

/-- **C6.** For every left/right split reaching the horizontal-separation
check (both groups have at least 2 boxes), the validator returns `false` if
`median(x_start over right) − median(x_end over left) < −20` and otherwise
continues to the vertical checks; the statistics used are the medians
(lines 142-148). -/
theorem C6_median_separation_check (left right : List BBox) (layout_height : ℚ)
    (hl : 2 ≤ left.length) (hr : 2 ≤ right.length) :
    (np_median (right.map BBox.x_start) - np_median (left.map BBox.x_end) < -20 →
      validate_columns left right layout_height = false) ∧
    (-20 ≤ np_median (right.map BBox.x_start) - np_median (left.map BBox.x_end) →
      validate_columns left right layout_height =
        vertical_checks left right layout_height) := by
  have hlen : ¬(left.length < 2 ∨ right.length < 2) := by omega
  have hne : ¬(left = [] ∨ right = []) := by
    rintro (rfl | rfl) <;> simp at hl hr
  constructor
  · intro hlt
    unfold validate_columns
    rw [if_neg hlen, if_pos hlt]
  · intro hge
    unfold validate_columns
    rw [if_neg hlen, if_neg (not_lt.mpr hge), if_neg hne]

/-- Witness for C6 at two concrete two-box columns. -/
theorem C6_witness :
    2 ≤ LBoxPair.length ∧ 2 ≤ RBoxPair.length ∧
    ((np_median (RBoxPair.map BBox.x_start) - np_median (LBoxPair.map BBox.x_end) < -20 →
        validate_columns LBoxPair RBoxPair 800 = false) ∧
      (-20 ≤ np_median (RBoxPair.map BBox.x_start) - np_median (LBoxPair.map BBox.x_end) →
        validate_columns LBoxPair RBoxPair 800 =
          vertical_checks LBoxPair RBoxPair 800)) :=
  ⟨by norm_num [LBoxPair], by norm_num [RBoxPair],
    C6_median_separation_check LBoxPair RBoxPair 800
      (by norm_num [LBoxPair]) (by norm_num [RBoxPair])⟩

/-- **C10.** In every execution reaching the vertical-overlap ratio division
(the column-height check of lines 163-165 passed with
`layout_height ≥ 300` from line 79), the divisor `shorter_column_height` is
strictly positive, so the zero-height guard branch of lines 171-173 is
unreachable and the vertical checks reduce to the ratio comparison of
line 174. -/
theorem C10_shorter_column_positive (left right : List BBox) (layout_height : ℚ)
    (hlh : 300 ≤ layout_height)
    (hcols : ¬(column_height left < layout_height * (3/10) ∨
        column_height right < layout_height * (3/10))) :
    0 < shorter_column_height left right ∧
    vertical_checks left right layout_height =
      !decide (vertical_overlap_amount left right / shorter_column_height left right
        < 2/5) := by
  push_neg at hcols
  obtain ⟨h1, h2⟩ := hcols
  have hq : (0 : ℚ) < layout_height * (3/10) := by linarith
  have hpos : 0 < shorter_column_height left right :=
    lt_min (lt_of_lt_of_le hq h1) (lt_of_lt_of_le hq h2)
  refine ⟨hpos, ?_⟩
  unfold vertical_checks
  rw [if_neg (by push_neg; exact ⟨h1, h2⟩), if_neg (ne_of_gt hpos)]
  by_cases hov : vertical_overlap_amount left right / shorter_column_height left right
      < 2/5
  · rw [if_pos hov]
    simp [hov]
  · rw [if_neg hov]
    simp [hov]

/-- Witness for C10 at two concrete columns of height 350 in an 800px layout. -/
theorem C10_witness :
    (300 : ℚ) ≤ 800 ∧
    ¬(column_height LBoxPair < 800 * (3/10) ∨ column_height RBoxPair < 800 * (3/10)) ∧
    (0 < shorter_column_height LBoxPair RBoxPair ∧
      vertical_checks LBoxPair RBoxPair 800 =
        !decide (vertical_overlap_amount LBoxPair RBoxPair
          / shorter_column_height LBoxPair RBoxPair < 2/5)) :=
  ⟨by norm_num,
    by norm_num [column_height, column_max_y, column_min_y, pyMinQ, pyMaxQ,
      LBoxPair, RBoxPair],
    C10_shorter_column_positive LBoxPair RBoxPair 800 (by norm_num)
      (by norm_num [column_height, column_max_y, column_min_y, pyMinQ, pyMaxQ,
        LBoxPair, RBoxPair])⟩

end Visualizer
